import Mathlib

/-!
Verification of the descendant-tracking tool (`track_descendants.c`, the
polling engine, and `track_kqueue.c`, the kqueue event engine) against its
specification.  The C sources are shallowly embedded: PID sets become lists
of integers paired with a capacity, OS facilities (`proc_listchildpids`,
`kill`, `kevent`, `waitpid`) become oracle functions supplied as parameters,
blocking loops take a fuel argument and return `none` when the fuel runs
out, and `exit(1)` becomes an `Except.error` outcome.
-/

/-- Errno value for "no such process". -/
def ESRCH : Nat := 3

/-- Errno value for "operation not permitted". -/
def EPERM : Nat := 1

/-- Errno value for "interrupted system call". -/
def EINTR : Nat := 4

/-- Errno value for "no child processes". -/
def ECHILD : Nat := 10

/-- Shallow embedding of `struct pid_set` (identical in both C files): the
`data` list holds the first `count` entries of the backing array, and
`capacity` is the allocated capacity. -/
structure pid_set where
  data : List Int
  capacity : Nat
deriving Repr, DecidableEq

/-- The zero-initialised set `{0}` both engines start from. -/
def pid_set_empty : pid_set := { data := [], capacity := 0 }

/-- Embedding of `pid_set_contains`: linear scan for `pid`. -/
def pid_set_contains (s : pid_set) (pid : Int) : Bool :=
  s.data.any (fun x => x == pid)

/-- Embedding of `pid_set_add` with an explicit allocation oracle:
`alloc c` tells whether allocating a backing array of `c` slots succeeds.
`Except.error 1` models `perror("realloc"); exit(1)`. -/
def pid_set_add_r (alloc : Nat → Bool) (s : pid_set) (pid : Int) :
    Except Nat pid_set :=
  if pid ≤ 0 || pid_set_contains s pid then .ok s
  else if s.data.length = s.capacity then
    let new_capacity := if s.capacity = 0 then 16 else s.capacity * 2
    if alloc new_capacity then
      .ok { data := s.data ++ [pid], capacity := new_capacity }
    else .error 1
  else .ok { s with data := s.data ++ [pid] }

/-- Embedding of `pid_set_add` on the allocation-succeeds path (the only
path on which the caller continues). -/
def pid_set_add (s : pid_set) (pid : Int) : pid_set :=
  if pid ≤ 0 || pid_set_contains s pid then s
  else if s.data.length = s.capacity then
    { data := s.data ++ [pid],
      capacity := if s.capacity = 0 then 16 else s.capacity * 2 }
  else { s with data := s.data ++ [pid] }

/-- Embedding of `pid_set_remove` (track_kqueue.c): scan for the first
occurrence of `pid`; if found, overwrite it with the current last element
and drop the last slot; otherwise a no-op. -/
def pid_set_remove (s : pid_set) (pid : Int) : pid_set :=
  let i := s.data.findIdx (fun x => x == pid)
  if i < s.data.length then
    { s with data := (s.data.set i (s.data.getLastD 0)).dropLast }
  else s

/-- Embedding of `pid_set_clear`: reset count to zero, keep the storage. -/
def pid_set_clear (s : pid_set) : pid_set :=
  { s with data := [] }

/-- Embedding of `pid_set_swap`: exchange the two sets' storage, count and
capacity in constant time. -/
def pid_set_swap (a b : pid_set) : pid_set × pid_set := (b, a)

/-- Well-formedness invariant of a PID set as constructed by the program:
pairwise-distinct, strictly positive elements. -/
def pid_set_wf (s : pid_set) : Prop :=
  s.data.Nodup ∧ ∀ p ∈ s.data, 0 < p

/-- The mutating operations applied to a single `pid_set` over its
lifetime in either engine. -/
inductive SetOp where
  | addOp (pid : Int)
  | removeOp (pid : Int)
  | clearOp
deriving Repr, DecidableEq

/-- Applies one `SetOp` to a set. -/
def apply_op (s : pid_set) : SetOp → pid_set
  | .addOp pid => pid_set_add s pid
  | .removeOp pid => pid_set_remove s pid
  | .clearOp => pid_set_clear s

/-- Embedding of `struct child_buffer` (the reusable enumeration scratch
buffer); only its capacity is state, the contents are overwritten by each
OS call, which the oracle models. -/
structure child_buffer where
  capacity : Nat
deriving Repr, DecidableEq

/-- Retry loop of `list_children`.  `os c` is the oracle for one
`proc_listchildpids` call into a buffer of `c` slots: `.error e` models a
negative return with `errno = e`, `.ok l` models a non-negative return
whose value is `l.length` with `l` the PIDs written.  `alloc c` tells
whether the `realloc` growing the buffer to `c` slots succeeds.  The
result pairs the final capacity with the outcome; `.error ()` models
`return -1`; `none` means the fuel ran out before the loop settled. -/
def list_children_loop (os : Nat → Except Nat (List Int)) (alloc : Nat → Bool) :
    Nat → Nat → Option (Nat × Except Unit (List Int))
  | 0, _ => none
  | fuel + 1, cap =>
    match os cap with
    | .error e =>
      if e = ESRCH then some (cap, .ok [])
      else some (cap, .error ())
    | .ok lst =>
      if lst.length < cap then some (cap, .ok lst)
      else if alloc (2 * cap) then list_children_loop os alloc fuel (2 * cap)
      else some (cap, .error ())

/-- Embedding of `list_children` (identical in both C files): on first use
it sets the capacity to 16 and allocates (failure of that `malloc` is
`return -1`), then runs the retry loop. -/
def list_children (os : Nat → Except Nat (List Int)) (alloc : Nat → Bool)
    (fuel : Nat) (buf : child_buffer) :
    Option (child_buffer × Except Unit (List Int)) :=
  if buf.capacity = 0 then
    if alloc 16 then
      match list_children_loop os alloc fuel 16 with
      | none => none
      | some (cap, r) => some (⟨cap⟩, r)
    else some (⟨16⟩, .error ())
  else
    match list_children_loop os alloc fuel buf.capacity with
    | none => none
    | some (cap, r) => some (⟨cap⟩, r)

/-- Embedding of `pid_is_alive` (track_descendants.c): `kill0 pid` is the
oracle for `kill(pid, 0)` — `none` models a zero return, `some e` a failure
with `errno = e`. -/
def pid_is_alive (kill0 : Int → Option Nat) (pid : Int) : Bool :=
  if pid ≤ 0 then false
  else
    match kill0 pid with
    | none => true
    | some e => e == EPERM

/-- Embedding of `watch_pid` (track_kqueue.c): `kreg pid` is the oracle for
the `kevent` registration call — `none` models success, `some e` a failure
with `errno = e`.  `.ok 0` is plain success, `.ok 1` the "no such process"
indication, and `.error 1` models `perror("kevent"); exit(1)`. -/
def watch_pid (kreg : Int → Option Nat) (pid : Int) : Except Nat Nat :=
  match kreg pid with
  | none => .ok 0
  | some e => if e = ESRCH then .ok 1 else .error 1

/-- Oracles for the OS calls made by `add_pid_watch` / `ensure_children`:
`os pid cap` answers one `proc_listchildpids(pid, ...)` call into `cap`
slots, `alloc` the allocations, `kreg` the `kevent` registrations, and
`lcFuel` / `ecFuel` bound the enumeration retry loop and recursion depth. -/
structure KqEnv where
  os : Int → Nat → Except Nat (List Int)
  alloc : Nat → Bool
  kreg : Int → Option Nat
  lcFuel : Nat
  ecFuel : Nat

/-- The mutable state threaded through the kqueue engine's discovery
functions: the seen set, the active set and the enumeration buffer. -/
structure KqState where
  seen : pid_set
  active : pid_set
  buf : child_buffer
deriving Repr, DecidableEq

mutual

/-- Embedding of `add_pid_watch` (track_kqueue.c).  `.error c` models
`exit(c)` escaping from `watch_pid`; `none` models recursion fuel running
out (the C code recurses on the dynamically discovered process tree). -/
def add_pid_watch (env : KqEnv) : Nat → KqState → Int → Option (Except Nat KqState)
  | 0, _, _ => none
  | fuel + 1, st, pid =>
    if pid ≤ 0 then some (.ok st)
    else
      let already_seen := pid_set_contains st.seen pid
      let st1 :=
        if !already_seen then { st with seen := pid_set_add st.seen pid } else st
      if !(pid_set_contains st1.active pid) then
        let st2 := { st1 with active := pid_set_add st1.active pid }
        match watch_pid env.kreg pid with
        | .error c => some (.error c)
        | .ok r =>
          if r = 1 then
            some (.ok { st2 with active := pid_set_remove st2.active pid })
          else if !already_seen then ensure_children env fuel st2 pid
          else some (.ok st2)
      else if !already_seen then ensure_children env fuel st1 pid
      else some (.ok st1)

/-- Embedding of `ensure_children` (track_kqueue.c): re-enumerate `parent`,
then walk the returned children.  An enumeration failure is logged and the
function returns with the sets untouched. -/
def ensure_children (env : KqEnv) : Nat → KqState → Int → Option (Except Nat KqState)
  | 0, _, _ => none
  | fuel + 1, st, parent =>
    match list_children (env.os parent) env.alloc env.lcFuel st.buf with
    | none => none
    | some (buf', .error ()) => some (.ok { st with buf := buf' })
    | some (buf', .ok cs) => ensure_children_loop env fuel { st with buf := buf' } cs

/-- The `for` loop inside `ensure_children`, over the enumerated children. -/
def ensure_children_loop (env : KqEnv) : Nat → KqState → List Int → Option (Except Nat KqState)
  | 0, _, _ => none
  | _ + 1, st, [] => some (.ok st)
  | fuel + 1, st, c :: rest =>
    if c ≤ 0 then ensure_children_loop env fuel st rest
    else
      let already_seen := pid_set_contains st.seen c
      let is_active := pid_set_contains st.active c
      if !already_seen then
        match add_pid_watch env fuel st c with
        | none => none
        | some (.error e) => some (.error e)
        | some (.ok st') => ensure_children_loop env fuel st' rest
      else if !is_active then
        let st1 := { st with active := pid_set_add st.active c }
        match watch_pid env.kreg c with
        | .error e => some (.error e)
        | .ok r =>
          if r = 1 then
            ensure_children_loop env fuel
              { st1 with active := pid_set_remove st1.active c } rest
          else
            match ensure_children env fuel st1 c with
            | none => none
            | some (.error e) => some (.error e)
            | some (.ok st') => ensure_children_loop env fuel st' rest
      else ensure_children_loop env fuel st rest

end

/-- State of the kqueue engine's main loop: the discovery state plus the
`child_exited` flag; `reaped` additionally records whether a `waitpid`
call has actually collected the command's exit status. -/
structure kq_main_state where
  ks : KqState
  child_exited : Bool
  reaped : Bool
deriving Repr, DecidableEq

/-- One kqueue event as the loop inspects it: its `ident` PID, the
`EV_ERROR` flag with its `data` errno, and the `NOTE_FORK` / `NOTE_EXIT`
filter flags. -/
structure KEv where
  ident : Int
  ev_error : Bool
  err_data : Nat
  note_fork : Bool
  note_exit : Bool
deriving Repr, DecidableEq

/-- Embedding of the event-processing `for` loop in `main`
(track_kqueue.c, lines 252-279). -/
def process_events (child : Int) (env : KqEnv) :
    List KEv → kq_main_state → Option (Except Nat kq_main_state)
  | [], st => some (.ok st)
  | ev :: rest, st =>
    if ev.ev_error then
      if ev.err_data = ESRCH then
        let st1 :=
          { st with ks := { st.ks with active := pid_set_remove st.ks.active ev.ident } }
        let st2 := if ev.ident == child then { st1 with child_exited := true } else st1
        process_events child env rest st2
      else process_events child env rest st
    else
      match (if ev.note_fork then ensure_children env env.ecFuel st.ks ev.ident
             else some (.ok st.ks)) with
      | none => none
      | some (.error e) => some (.error e)
      | some (.ok ks1) =>
        let st1 := { st with ks := ks1 }
        let st2 :=
          if ev.note_exit then
            let stx :=
              { st1 with ks := { st1.ks with active := pid_set_remove st1.ks.active ev.ident } }
            if ev.ident == child then { stx with child_exited := true } else stx
          else st1
        process_events child env rest st2

/-- Outcome of one blocking `waitpid(child, ..., 0)` call in the kqueue
main loop: the child was reaped, the call was interrupted, there is no
child, or it failed another way. -/
inductive BWaitRes where
  | reapedW
  | eintrW
  | echildW
  | errW
deriving Repr, DecidableEq

/-- Outcome of one blocking `kevent` retrieval call: interrupted, failed,
or a batch of events. -/
inductive KevRes where
  | eintrK
  | errK
  | evs (l : List KEv)
deriving Repr, DecidableEq

/-- The OS inputs consumed by one iteration of the kqueue main loop. -/
structure KqIter where
  bwait : BWaitRes
  kev : KevRes
  env : KqEnv
  reap_now : Bool

/-- How the kqueue main loop ended: `done st b` is loop exit with final
state `st` (`b` records that the exit was a `perror(...); break` on an OS
failure), `fatalExit c` models `exit(c)`. -/
inductive KqLoopOut where
  | done (st : kq_main_state) (err_break : Bool)
  | fatalExit (code : Nat)
deriving Repr, DecidableEq

/-- Embedding of the kqueue engine's main loop (track_kqueue.c,
lines 222-287), driven by one `KqIter` of OS inputs per iteration. -/
def kq_loop (child : Int) (iters : Nat → KqIter) : Nat → kq_main_state → Option KqLoopOut
  | 0, _ => none
  | fuel + 1, st =>
    if st.child_exited = false ∨ 0 < st.ks.active.data.length then
      if st.child_exited = false ∧ st.ks.active.data.length = 0 then
        match (iters fuel).bwait with
        | .reapedW => some (.done { st with child_exited := true, reaped := true } false)
        | .eintrW => kq_loop child iters fuel st
        | .echildW => some (.done { st with child_exited := true } false)
        | .errW => some (.done st true)
      else
        match (iters fuel).kev with
        | .eintrK => kq_loop child iters fuel st
        | .errK => some (.done st true)
        | .evs l =>
          match process_events child (iters fuel).env l st with
          | none => none
          | some (.error e) => some (.fatalExit e)
          | some (.ok st1) =>
            let st2 :=
              if st1.child_exited = false ∧ (iters fuel).reap_now then
                { st1 with child_exited := true, reaped := true }
              else st1
            kq_loop child iters fuel st2
    else some (.done st false)

/-- Embedding of the kqueue engine's `main` after the fork: seed the sets
by watching the command PID, then run the event loop. -/
def kq_run (child : Int) (env0 : KqEnv) (iters : Nat → KqIter) (awFuel fuel : Nat) :
    Option KqLoopOut :=
  match add_pid_watch env0 awFuel
      { seen := pid_set_empty, active := pid_set_empty, buf := ⟨0⟩ } child with
  | none => none
  | some (.error e) => some (.fatalExit e)
  | some (.ok ks) =>
    kq_loop child iters fuel
      { ks := ks, child_exited := !(pid_set_contains ks.active child), reaped := false }

/-- The OS inputs consumed by one iteration of the polling main loop. -/
structure PollEnv where
  reap_now : Bool
  kill0 : Int → Option Nat
  os : Int → Nat → Except Nat (List Int)
  alloc : Nat → Bool
  lcFuel : Nat

/-- State of the polling engine's main loop (track_descendants.c `main`):
the five sets, the enumeration buffer, the `child_exited` flag (set only
by a successful `waitpid` on the command, i.e. reaping), and the warm-up
counter. -/
structure poll_state where
  seen : pid_set
  active : pid_set
  next_active : pid_set
  to_poll : pid_set
  next_to_poll : pid_set
  buf : child_buffer
  child_exited : Bool
  warmup : Nat
deriving Repr, DecidableEq

/-- Embedding of the inner `for` loop over one parent's enumerated
children (track_descendants.c, lines 176-188). -/
def poll_children_fold (kill0 : Int → Option Nat) :
    List Int → poll_state → poll_state
  | [], st => st
  | c :: rest, st =>
    if c ≤ 0 then poll_children_fold kill0 rest st
    else
      let st1 :=
        if !(pid_set_contains st.seen c) then { st with seen := pid_set_add st.seen c }
        else st
      let st2 :=
        if pid_is_alive kill0 c then
          { st1 with next_active := pid_set_add st1.next_active c,
                     next_to_poll := pid_set_add st1.next_to_poll c }
        else st1
      poll_children_fold kill0 rest st2

/-- Embedding of the `for` loop over the current frontier
(track_descendants.c, lines 160-189): probe liveness, keep live PIDs,
enumerate their children.  An enumeration failure is logged and treated as
zero children for that parent. -/
def poll_scan (env : PollEnv) : List Int → poll_state → Option poll_state
  | [], st => some st
  | current :: rest, st =>
    if !(pid_is_alive env.kill0 current) then poll_scan env rest st
    else
      let st1 := { st with next_active := pid_set_add st.next_active current,
                           next_to_poll := pid_set_add st.next_to_poll current }
      match list_children (env.os current) env.alloc env.lcFuel st1.buf with
      | none => none
      | some (buf', .error ()) => poll_scan env rest { st1 with buf := buf' }
      | some (buf', .ok cs) =>
        poll_scan env rest (poll_children_fold env.kill0 cs { st1 with buf := buf' })

/-- Embedding of one iteration body of the polling main loop: the
non-blocking reap check, clearing the next-generation sets, the frontier
scan, and the double-buffer swap plus clear. -/
def poll_body (env : PollEnv) (st : poll_state) : Option poll_state :=
  let st0 := if st.child_exited = false ∧ env.reap_now then { st with child_exited := true } else st
  let st1 := { st0 with next_active := pid_set_clear st0.next_active,
                        next_to_poll := pid_set_clear st0.next_to_poll }
  match poll_scan env st1.to_poll.data st1 with
  | none => none
  | some st2 =>
    some { st2 with
           active := st2.next_active,
           next_active := pid_set_clear st2.active,
           to_poll := st2.next_to_poll,
           next_to_poll := pid_set_clear st2.to_poll }

/-- Embedding of the polling engine's main loop (track_descendants.c,
lines 149-205), driven by one `PollEnv` of OS inputs per iteration. -/
def poll_loop (envs : Nat → PollEnv) : Nat → poll_state → Option poll_state
  | 0, _ => none
  | fuel + 1, st =>
    if st.child_exited = false ∨ 0 < st.active.data.length then
      match poll_body (envs fuel) st with
      | none => none
      | some st1 =>
        if st1.child_exited = true ∧ st1.active.data.length = 0 then some st1
        else
          poll_loop envs fuel
            (if 0 < st1.warmup then { st1 with warmup := st1.warmup - 1 } else st1)
    else some st

/-- Embedding of the polling engine's initial state after the fork:
seed seen, active and the frontier with the command PID. -/
def poll_init (child : Int) : poll_state :=
  { seen := pid_set_add pid_set_empty child,
    active := pid_set_add pid_set_empty child,
    next_active := pid_set_empty,
    to_poll := pid_set_add pid_set_empty child,
    next_to_poll := pid_set_empty,
    buf := ⟨0⟩, child_exited := false, warmup := 200 }

/-- Relation capturing how a seen set may evolve over a run: entries are
only ever appended (so nothing is removed and the size cannot decrease),
and distinctness of the entries is preserved. -/
def seen_ext (s s' : pid_set) : Prop :=
  (∃ t, s'.data = s.data ++ t) ∧ (s.data.Nodup → s'.data.Nodup)

/-- Kqueue oracle environment whose OS calls all succeed trivially:
enumeration reports "no such process" and registration succeeds. -/
def kqEnvOk : KqEnv :=
  { os := fun _ _ => .error ESRCH, alloc := fun _ => true, kreg := fun _ => none,
    lcFuel := 5, ecFuel := 5 }

/-- Kqueue oracle environment whose event-registration calls fail with
"operation not permitted". -/
def kqEnvPerm : KqEnv :=
  { os := fun _ _ => .error ESRCH, alloc := fun _ => true,
    kreg := fun _ => some EPERM, lcFuel := 5, ecFuel := 5 }

/-- Main-loop iteration input whose `kevent` retrieval call fails with a
non-EINTR error. -/
def kqIterErr : KqIter :=
  { bwait := .reapedW, kev := .errK, env := kqEnvOk, reap_now := false }

/-- An enumeration oracle that always reports exactly 16 children. -/
def osSixteen : Nat → Except Nat (List Int) :=
  fun _ => .ok (List.replicate 16 (7 : Int))

/-- An allocation oracle on which only the allocation of 32 slots fails. -/
def allocNot32 : Nat → Bool :=
  fun c => !(c == 32)

/-- Kqueue oracle environment in which growing the enumeration buffer past
16 slots fails. -/
def kqEnvAllocFail : KqEnv :=
  { os := fun _ => osSixteen, alloc := allocNot32, kreg := fun _ => none,
    lcFuel := 5, ecFuel := 5 }

/-- Kqueue oracle environment in which every event registration fails with
"no such process" (the watched process exited before registration). -/
def kqEnvRace : KqEnv :=
  { os := fun _ _ => .error ESRCH, alloc := fun _ => true,
    kreg := fun _ => some ESRCH, lcFuel := 3, ecFuel := 3 }

/-- A concrete kqueue discovery state with one PID already tracked. -/
def kqRaceSt : KqState :=
  { seen := { data := [50], capacity := 16 },
    active := { data := [50], capacity := 16 }, buf := ⟨16⟩ }

/-- The state in which the kqueue main loop ends when its event-retrieval
call fails while the command (PID 100) is still alive and active. -/
def kqStBad : kq_main_state :=
  { ks := { seen := { data := [100], capacity := 16 },
            active := { data := [100], capacity := 16 },
            buf := { capacity := 16 } },
    child_exited := false, reaped := false }

example : pid_set_add pid_set_empty 5 = { data := [5], capacity := 16 } := by
  decide

example : pid_set_remove { data := [3, 7, 9], capacity := 16 } 3 =
    { data := [9, 7], capacity := 16 } := by decide

example : pid_set_remove { data := [3, 7, 9], capacity := 16 } 4 =
    { data := [3, 7, 9], capacity := 16 } := by decide

/-! ## Basic properties of the PID set operations -/

theorem pid_set_contains_iff (s : pid_set) (p : Int) :
    pid_set_contains s p = true ↔ p ∈ s.data := by
  simp [pid_set_contains]

theorem pid_set_contains_false_iff (s : pid_set) (p : Int) :
    pid_set_contains s p = false ↔ p ∉ s.data := by
  rw [Bool.eq_false_iff]
  exact not_congr (pid_set_contains_iff s p)

theorem pid_set_add_data (s : pid_set) (p : Int) :
    (pid_set_add s p).data = s.data ∨
      ((pid_set_add s p).data = s.data ++ [p] ∧ p ∉ s.data ∧ 0 < p) := by
  by_cases h : (p ≤ 0 || pid_set_contains s p) = true
  · left; simp [pid_set_add, h]
  · right
    have h' := h
    rw [Bool.or_eq_true, not_or] at h'
    obtain ⟨h1, h2⟩ := h'
    refine ⟨?_, ?_, ?_⟩
    · by_cases hlen : s.data.length = s.capacity <;> simp [pid_set_add, h, hlen]
    · exact (pid_set_contains_false_iff s p).mp (Bool.eq_false_iff.mpr h2)
    · have hp : ¬p ≤ 0 := fun hp => h1 (decide_eq_true hp)
      omega

theorem seen_ext_refl (s : pid_set) : seen_ext s s :=
  ⟨⟨[], by simp⟩, id⟩

theorem seen_ext_of_data_eq {s s' : pid_set} (h : s'.data = s.data) : seen_ext s s' :=
  ⟨⟨[], by simp [h]⟩, fun hn => h ▸ hn⟩

theorem seen_ext_trans {a b c : pid_set} (h1 : seen_ext a b) (h2 : seen_ext b c) :
    seen_ext a c := by
  obtain ⟨⟨t1, e1⟩, n1⟩ := h1
  obtain ⟨⟨t2, e2⟩, n2⟩ := h2
  exact ⟨⟨t1 ++ t2, by rw [e2, e1, List.append_assoc]⟩, fun h => n2 (n1 h)⟩

theorem seen_ext_add (s : pid_set) (p : Int) : seen_ext s (pid_set_add s p) := by
  rcases pid_set_add_data s p with h | ⟨h, hnm, _⟩
  · exact seen_ext_of_data_eq h
  · refine ⟨⟨[p], h⟩, fun hn => ?_⟩
    rw [h]
    simp [List.nodup_append, hn, hnm]

theorem seen_ext_length {s s' : pid_set} (h : seen_ext s s') :
    s.data.length ≤ s'.data.length := by
  obtain ⟨⟨t, e⟩, _⟩ := h
  simp [e]

/-! ## Properties of pid_set_add_r (C6, C5) -/

theorem pid_set_add_r_cases (alloc : Nat → Bool) (s t : pid_set) (pid : Int)
    (h : pid_set_add_r alloc s pid = .ok t) :
    ((pid ≤ 0 ∨ pid ∈ s.data) ∧ t = s) ∨ t.data = s.data ++ [pid] := by
  unfold pid_set_add_r at h
  by_cases h0 : (pid ≤ 0 || pid_set_contains s pid) = true
  · left
    rw [if_pos h0] at h
    cases h
    refine ⟨?_, rfl⟩
    have h0' : pid ≤ 0 ∨ pid_set_contains s pid = true := by
      simpa [Bool.or_eq_true, decide_eq_true_iff] using h0
    rcases h0' with h1 | h1
    · exact Or.inl h1
    · exact Or.inr ((pid_set_contains_iff s pid).mp h1)
  · right
    rw [if_neg h0] at h
    by_cases hlen : s.data.length = s.capacity
    · rw [if_pos hlen] at h
      simp only at h
      by_cases ha : alloc (if s.capacity = 0 then 16 else s.capacity * 2) = true
      · rw [if_pos ha] at h; cases h; rfl
      · rw [if_neg ha] at h; cases h
    · rw [if_neg hlen] at h; cases h; rfl

/-- C6: for every PID set state and every pid, `add` leaves size and
membership unchanged when `pid ≤ 0` or `pid` is already present, and
adding the same PID twice is equivalent to adding it once, under any
allocation behaviour. -/
theorem add_idempotent_claim (alloc alloc' : Nat → Bool) (s t : pid_set) (pid : Int) :
    (pid ≤ 0 → pid_set_add_r alloc s pid = .ok s) ∧
    (pid_set_contains s pid = true → pid_set_add_r alloc s pid = .ok s) ∧
    (pid_set_add_r alloc s pid = .ok t → pid_set_add_r alloc' t pid = .ok t) := by
  refine ⟨fun h => ?_, fun h => ?_, fun h => ?_⟩
  · simp [pid_set_add_r, h]
  · simp [pid_set_add_r, h]
  · rcases pid_set_add_r_cases alloc s t pid h with ⟨hm, rfl⟩ | hdat
    · rcases hm with h1 | h1
      · simp [pid_set_add_r, h1]
      · simp [pid_set_add_r, (pid_set_contains_iff t pid).mpr h1]
    · have hmem : pid ∈ t.data := by simp [hdat]
      simp [pid_set_add_r, (pid_set_contains_iff t pid).mpr hmem]

/-- Witness for `add_idempotent_claim` at a concrete set and PID. -/
theorem add_idempotent_claim_witness :
    pid_set_add_r (fun _ => true) { data := [4], capacity := 16 } 7 =
      .ok { data := [4, 7], capacity := 16 } ∧
    pid_set_add_r (fun _ => true) { data := [4, 7], capacity := 16 } 7 =
      .ok { data := [4, 7], capacity := 16 } := by
  constructor
  · rfl
  · exact (add_idempotent_claim (fun _ => true) (fun _ => true)
      { data := [4], capacity := 16 } { data := [4, 7], capacity := 16 } 7).2.2 (by rfl)

/-! ## Properties of the child enumerator (C3, C5, C8) -/

theorem list_children_loop_ok (os : Nat → Except Nat (List Int)) (alloc : Nat → Bool)
    (fuel : Nat) :
    ∀ (cap cap' : Nat) (r : Except Unit (List Int)), 0 < cap →
      list_children_loop os alloc fuel cap = some (cap', r) →
      cap ≤ cap' ∧ 0 < cap' ∧ ∀ lst, r = .ok lst → lst.length < cap' := by
  induction fuel with
  | zero =>
    intro cap cap' r _ h
    simp [list_children_loop] at h
  | succ n ih =>
    intro cap cap' r hcap h
    simp only [list_children_loop] at h
    split at h
    · split at h
      · simp only [Option.some.injEq, Prod.mk.injEq] at h
        obtain ⟨rfl, rfl⟩ := h
        refine ⟨Nat.le_refl _, hcap, ?_⟩
        intro l hl
        injection hl with hh
        subst hh
        simpa using hcap
      · simp only [Option.some.injEq, Prod.mk.injEq] at h
        obtain ⟨rfl, rfl⟩ := h
        exact ⟨Nat.le_refl _, hcap, by intro l hl; cases hl⟩
    · rename_i lst hos
      split at h
      · simp only [Option.some.injEq, Prod.mk.injEq] at h
        obtain ⟨rfl, rfl⟩ := h
        refine ⟨Nat.le_refl _, hcap, ?_⟩
        intro l hl
        injection hl with hh
        subst hh
        rename_i hlt
        exact hlt
      · split at h
        · obtain ⟨h1, h2, h3⟩ := ih (2 * cap) cap' r (by omega) h
          exact ⟨by omega, h2, h3⟩
        · simp only [Option.some.injEq, Prod.mk.injEq] at h
          obtain ⟨rfl, rfl⟩ := h
          exact ⟨Nat.le_refl _, hcap, by intro l hl; cases hl⟩

/-- C3: if the OS enumeration call reports a count at or above the current
capacity, the enumerator doubles the buffer and retries; an `ok` result is
only produced by a call that returned strictly fewer elements than the
final capacity, and the buffer's capacity never shrinks. -/
theorem enumerator_growth_claim :
    (∀ (os : Nat → Except Nat (List Int)) (alloc : Nat → Bool) (fuel : Nat)
        (buf buf' : child_buffer) (r : Except Unit (List Int)),
        list_children os alloc fuel buf = some (buf', r) →
        buf.capacity ≤ buf'.capacity ∧
          ∀ lst, r = .ok lst → lst.length < buf'.capacity) ∧
    (∀ (os : Nat → Except Nat (List Int)) (alloc : Nat → Bool) (fuel cap : Nat)
        (lst : List Int),
        os cap = .ok lst → cap ≤ lst.length → alloc (2 * cap) = true →
        list_children_loop os alloc (fuel + 1) cap =
          list_children_loop os alloc fuel (2 * cap)) := by
  constructor
  · intro os alloc fuel buf buf' r h
    unfold list_children at h
    by_cases h0 : buf.capacity = 0
    · rw [if_pos h0] at h
      by_cases ha : alloc 16 = true
      · rw [if_pos ha] at h
        cases hl : list_children_loop os alloc fuel 16 with
        | none => rw [hl] at h; cases h
        | some v =>
          obtain ⟨cap, rr⟩ := v
          rw [hl] at h
          simp only [Option.some.injEq, Prod.mk.injEq] at h
          obtain ⟨rfl, rfl⟩ := h
          obtain ⟨h1, h2, h3⟩ := list_children_loop_ok os alloc fuel 16 cap rr (by omega) hl
          exact ⟨by simp [h0], h3⟩
      · rw [if_neg ha] at h
        simp only [Option.some.injEq, Prod.mk.injEq] at h
        obtain ⟨rfl, rfl⟩ := h
        exact ⟨by simp [h0], by intro l hl; cases hl⟩
    · rw [if_neg h0] at h
      cases hl : list_children_loop os alloc fuel buf.capacity with
      | none => rw [hl] at h; cases h
      | some v =>
        obtain ⟨cap, rr⟩ := v
        rw [hl] at h
        simp only [Option.some.injEq, Prod.mk.injEq] at h
        obtain ⟨rfl, rfl⟩ := h
        obtain ⟨h1, h2, h3⟩ :=
          list_children_loop_ok os alloc fuel buf.capacity cap rr (Nat.pos_of_ne_zero h0) hl
        exact ⟨h1, h3⟩
  · intro os alloc fuel cap lst hos hle ha
    simp [list_children_loop, hos, Nat.not_lt.mpr hle, ha]

/-- Witness for `enumerator_growth_claim`: a call reporting 16 children at
capacity 16 makes the enumerator double to 32 and retry, and the result it
then returns is strictly below the final capacity. -/
theorem enumerator_growth_claim_witness :
    list_children (fun c => if c = 16 then .ok (List.replicate 16 (7 : Int)) else .ok [1, 2])
        (fun _ => true) 5 ⟨16⟩ = some (⟨32⟩, .ok [1, 2]) ∧
    (16 : Nat) ≤ 32 ∧ (2 : Nat) < 32 := by
  refine ⟨by rfl, ?_, ?_⟩
  · exact (enumerator_growth_claim.1
      (fun c => if c = 16 then .ok (List.replicate 16 (7 : Int)) else .ok [1, 2])
      (fun _ => true) 5 ⟨16⟩ ⟨32⟩ (.ok [1, 2]) (by rfl)).1
  · exact (enumerator_growth_claim.1
      (fun c => if c = 16 then .ok (List.replicate 16 (7 : Int)) else .ok [1, 2])
      (fun _ => true) 5 ⟨16⟩ ⟨32⟩ (.ok [1, 2]) (by rfl)).2 [1, 2] rfl

/-- C8: an enumeration call failing with "no such process" yields an empty
child sequence with a success status, both at the retry-loop level and at
the `list_children` entry point. -/
theorem esrch_empty_claim :
    (∀ (os : Nat → Except Nat (List Int)) (alloc : Nat → Bool) (fuel cap : Nat),
        os cap = .error ESRCH →
        list_children_loop os alloc (fuel + 1) cap = some (cap, .ok [])) ∧
    (∀ (os : Nat → Except Nat (List Int)) (alloc : Nat → Bool) (fuel : Nat)
        (buf : child_buffer), buf.capacity ≠ 0 →
        os buf.capacity = .error ESRCH →
        list_children os alloc (fuel + 1) buf = some (⟨buf.capacity⟩, .ok [])) := by
  constructor
  · intro os alloc fuel cap h
    simp [list_children_loop, h]
  · intro os alloc fuel buf h0 h
    simp [list_children, h0, list_children_loop, h]

/-- Witness for `esrch_empty_claim` at a concrete oracle and buffer. -/
theorem esrch_empty_claim_witness :
    list_children (fun _ => .error ESRCH) (fun _ => true) 3 ⟨16⟩ =
      some (⟨16⟩, .ok []) := by
  exact esrch_empty_claim.2 (fun _ => .error ESRCH) (fun _ => true) 2 ⟨16⟩
    (by decide) rfl

/-! ## Allocation-failure behaviour (C5) -/

/-- C5 counterexample: growing the child-enumeration buffer fails (the
`realloc` from 16 to 32 slots is refused), yet `list_children` merely
returns `-1` (here `.error ()`) and its caller `ensure_children` logs the
failure and continues with the sets untouched — the process does not
terminate. -/
theorem alloc_failure_cex :
    list_children osSixteen allocNot32 5 ⟨16⟩ = some (⟨16⟩, .error ()) ∧
    ensure_children kqEnvAllocFail 1
        { seen := pid_set_empty, active := pid_set_empty, buf := ⟨16⟩ } 7 =
      some (.ok { seen := pid_set_empty, active := pid_set_empty, buf := ⟨16⟩ }) := by
  constructor
  · rfl
  · rfl

/-- C5 amended: an allocation failure while growing a PID set is fatal
(`exit(1)`), but an allocation failure while growing the child-enumeration
buffer makes `list_children` return an error that its callers treat as a
recoverable "zero children" outcome. -/
theorem alloc_failure_claim :
    (∀ (alloc : Nat → Bool) (s : pid_set) (pid : Int),
        (pid ≤ 0 || pid_set_contains s pid) = false →
        s.data.length = s.capacity →
        alloc (if s.capacity = 0 then 16 else s.capacity * 2) = false →
        pid_set_add_r alloc s pid = .error 1) ∧
    (∀ (os : Nat → Except Nat (List Int)) (alloc : Nat → Bool) (fuel cap : Nat)
        (lst : List Int),
        os cap = .ok lst → cap ≤ lst.length → alloc (2 * cap) = false →
        list_children_loop os alloc (fuel + 1) cap = some (cap, .error ())) := by
  constructor
  · intro alloc s pid h0 hlen ha
    simp [pid_set_add_r, h0, hlen, ha]
  · intro os alloc fuel cap lst hos hle ha
    simp [list_children_loop, hos, Nat.not_lt.mpr hle, ha]

/-- Witness for `alloc_failure_claim` at concrete inputs: a full set whose
growth allocation is refused makes `add` exit with status 1, and a refused
buffer growth makes the enumerator return the recoverable error. -/
theorem alloc_failure_claim_witness :
    pid_set_add_r (fun _ => false) { data := [4], capacity := 1 } 9 = .error 1 ∧
    list_children_loop osSixteen allocNot32 3 16 = some (16, .error ()) := by
  constructor
  · exact (alloc_failure_claim.1 (fun _ => false) { data := [4], capacity := 1 } 9
      (by decide) (by decide) (by decide))
  · exact (alloc_failure_claim.2 osSixteen allocNot32 2 16 (List.replicate 16 (7 : Int))
      (by rfl) (by decide) (by decide))

/-! ## Recoverable versus fatal OS failures (C4) -/

/-- C4 counterexample: an event-registration failure with an errno other
than "no such process" (here EPERM) does not continue the loop — the
kqueue engine run aborts via `exit(1)`. -/
theorem recoverable_failures_cex :
    kq_run 100 kqEnvPerm (fun _ => kqIterErr) 5 3 = some (.fatalExit 1) := by
  rfl

/-- C4 amended: an enumeration failure is logged and treated as zero
children found and the loop goes on — `ensure_children` returns with the
sets untouched and the polling scan proceeds to the next frontier PID —
but a non-ESRCH event-registration failure is fatal (`exit(1)`). -/
theorem recoverable_failures_claim :
    (∀ (env : KqEnv) (fuel : Nat) (st : KqState) (parent : Int) (buf' : child_buffer),
        list_children (env.os parent) env.alloc env.lcFuel st.buf =
            some (buf', .error ()) →
        ensure_children env (fuel + 1) st parent = some (.ok { st with buf := buf' })) ∧
    (∀ (env : PollEnv) (rest : List Int) (current : Int) (st : poll_state)
        (buf' : child_buffer),
        pid_is_alive env.kill0 current = true →
        list_children (env.os current) env.alloc env.lcFuel st.buf =
            some (buf', .error ()) →
        poll_scan env (current :: rest) st =
          poll_scan env rest
            { st with next_active := pid_set_add st.next_active current,
                      next_to_poll := pid_set_add st.next_to_poll current,
                      buf := buf' }) ∧
    (∀ (kreg : Int → Option Nat) (pid : Int) (e : Nat), kreg pid = some e →
        e ≠ ESRCH → watch_pid kreg pid = .error 1) := by
  refine ⟨?_, ?_, ?_⟩
  · intro env fuel st parent buf' h
    simp [ensure_children, h]
  · intro env rest current st buf' halive h
    simp [poll_scan, halive, h]
  · intro kreg pid e h he
    simp [watch_pid, h, he]

/-- Witness for `recoverable_failures_claim` at concrete inputs. -/
theorem recoverable_failures_claim_witness :
    ensure_children kqEnvAllocFail 4
        { seen := pid_set_empty, active := pid_set_empty, buf := ⟨16⟩ } 7 =
      some (.ok { seen := pid_set_empty, active := pid_set_empty, buf := ⟨16⟩ }) ∧
    watch_pid (fun _ => some EPERM) 42 = .error 1 := by
  constructor
  · exact recoverable_failures_claim.1 kqEnvAllocFail 3
      { seen := pid_set_empty, active := pid_set_empty, buf := ⟨16⟩ } 7 ⟨16⟩ (by rfl)
  · exact recoverable_failures_claim.2.2 (fun _ => some EPERM) 42 EPERM rfl (by decide)

/-! ## Properties of swap-with-last removal (C7, C9, C10) -/

theorem findIdx_beq_eq_length_of_not_mem {l : List Int} {p : Int} (h : p ∉ l) :
    l.findIdx (fun x => x == p) = l.length := by
  induction l with
  | nil => rfl
  | cons x xs ih =>
    have hpx : p ∉ xs := fun hm => h (List.mem_cons_of_mem _ hm)
    have hx : (x == p) = false := by
      simp only [beq_eq_false_iff_ne]
      intro hx
      exact h (hx ▸ List.mem_cons_self x xs)
    simp [List.findIdx_cons, hx, ih hpx]

theorem findIdx_beq_lt_length_of_mem {l : List Int} {p : Int} (h : p ∈ l) :
    l.findIdx (fun x => x == p) < l.length :=
  List.findIdx_lt_length_of_exists ⟨p, h, beq_self_eq_true p⟩

theorem getLastD_cons_of_ne_nil {x : Int} {xs : List Int} (h : xs ≠ []) (d : Int) :
    (x :: xs).getLastD d = xs.getLastD d := by
  rcases List.eq_nil_or_concat xs with rfl | ⟨ys, z, rfl⟩
  · exact absurd rfl h
  · rw [List.concat_eq_append, show x :: (ys ++ [z]) = (x :: ys) ++ [z] by simp,
      List.getLastD_concat, List.getLastD_concat]

theorem swap_remove_perm : ∀ (l : List Int) (p : Int), p ∈ l →
    ((l.set (l.findIdx (fun x => x == p)) (l.getLastD 0)).dropLast).Perm (l.erase p) := by
  intro l
  induction l with
  | nil => intro p h; cases h
  | cons x xs ih =>
    intro p hmem
    by_cases hx : x = p
    · subst hx
      have h0 : (x :: xs).findIdx (fun y => y == x) = 0 := by
        simp [List.findIdx_cons]
      rw [h0]
      rcases List.eq_nil_or_concat xs with rfl | ⟨ys, z, rfl⟩
      · simp
      · rw [List.concat_eq_append,
          show x :: (ys ++ [z]) = (x :: ys) ++ [z] by simp, List.getLastD_concat]
        rw [show (x :: ys) ++ [z] = x :: (ys ++ [z]) by simp, List.set_cons_zero]
        rw [show z :: (ys ++ [z]) = (z :: ys) ++ [z] by simp, List.dropLast_concat]
        rw [List.erase_cons_head]
        exact (List.perm_append_singleton z ys).symm
    · have hxb : ((x == p) : Bool) = false := by
        simp only [beq_eq_false_iff_ne]
        exact hx
      have hpxs : p ∈ xs := by
        rcases List.mem_cons.mp hmem with h | h
        · exact absurd h.symm hx
        · exact h
      have hxs : xs ≠ [] := by
        intro h; rw [h] at hpxs; cases hpxs
      have hidx : (x :: xs).findIdx (fun y => y == p) =
          xs.findIdx (fun y => y == p) + 1 := by
        simp [List.findIdx_cons, hxb]
      rw [hidx, getLastD_cons_of_ne_nil hxs, List.set_cons_succ]
      have hset : xs.set (xs.findIdx (fun y => y == p)) (xs.getLastD 0) ≠ [] := by
        intro h
        have := congrArg List.length h
        simp at this
        rw [this] at hpxs
        cases hpxs
      rw [List.dropLast_cons_of_ne_nil hset]
      rw [List.erase_cons_tail (by simp [hxb])]
      exact (ih p hpxs).cons x

theorem pid_set_remove_of_not_mem {s : pid_set} {p : Int} (h : p ∉ s.data) :
    pid_set_remove s p = s := by
  unfold pid_set_remove
  rw [findIdx_beq_eq_length_of_not_mem h]
  simp

theorem pid_set_remove_perm {s : pid_set} {p : Int} (h : p ∈ s.data) :
    (pid_set_remove s p).data.Perm (s.data.erase p) := by
  unfold pid_set_remove
  rw [if_pos (findIdx_beq_lt_length_of_mem h)]
  exact swap_remove_perm s.data p h

/-- C7: `remove(pid)` is a no-op on an absent PID; on a present PID it
decreases the size by exactly one and the resulting membership is the
original membership minus that PID (stated for well-formed, duplicate-free
set states, the only states the program constructs). -/
theorem remove_claim (s : pid_set) (pid : Int) (hnd : s.data.Nodup) :
    (pid_set_contains s pid = false → pid_set_remove s pid = s) ∧
    (pid_set_contains s pid = true →
      (pid_set_remove s pid).data.length + 1 = s.data.length ∧
      ∀ q : Int, pid_set_contains (pid_set_remove s pid) q = true ↔
        (pid_set_contains s q = true ∧ q ≠ pid)) := by
  constructor
  · intro h
    exact pid_set_remove_of_not_mem ((pid_set_contains_false_iff s pid).mp h)
  · intro h
    have hmem := (pid_set_contains_iff s pid).mp h
    have hperm := pid_set_remove_perm hmem
    constructor
    · rw [hperm.length_eq, List.length_erase_of_mem hmem]
      have : 0 < s.data.length := List.length_pos_of_mem hmem
      omega
    · intro q
      rw [pid_set_contains_iff, pid_set_contains_iff, hperm.mem_iff,
        hnd.mem_erase_iff]
      exact ⟨fun ⟨a, b⟩ => ⟨b, a⟩, fun ⟨a, b⟩ => ⟨b, a⟩⟩

/-- Witness for `remove_claim` at a concrete set and PID. -/
theorem remove_claim_witness :
    pid_set_remove { data := [3, 7, 9], capacity := 16 } 4 =
        { data := [3, 7, 9], capacity := 16 } ∧
    (pid_set_remove { data := [3, 7, 9], capacity := 16 } 3).data.length + 1 = 3 := by
  constructor
  · exact (remove_claim { data := [3, 7, 9], capacity := 16 } 4 (by decide)).1 (by decide)
  · exact ((remove_claim { data := [3, 7, 9], capacity := 16 } 3 (by decide)).2
      (by decide)).1

/-! ## Well-formedness of every constructed PID set (C9) -/

theorem pid_set_add_data_of_new {s : pid_set} {p : Int} (hp : 0 < p)
    (h : pid_set_contains s p = false) :
    (pid_set_add s p).data = s.data ++ [p] := by
  have hnle : ¬p ≤ 0 := by omega
  by_cases hlen : s.data.length = s.capacity <;> simp [pid_set_add, h, hnle, hlen]

theorem pid_set_wf_add {s : pid_set} (h : pid_set_wf s) (p : Int) :
    pid_set_wf (pid_set_add s p) := by
  obtain ⟨hnd, hpos⟩ := h
  rcases pid_set_add_data s p with hd | ⟨hd, hnm, hp⟩
  · exact ⟨by rw [hd]; exact hnd, by rw [hd]; exact hpos⟩
  · constructor
    · rw [hd]
      simp [List.nodup_append, hnd, hnm]
    · rw [hd]
      intro q hq
      rcases List.mem_append.mp hq with hql | hql
      · exact hpos q hql
      · simp at hql
        subst hql
        exact hp

theorem pid_set_wf_remove {s : pid_set} (h : pid_set_wf s) (p : Int) :
    pid_set_wf (pid_set_remove s p) := by
  obtain ⟨hnd, hpos⟩ := h
  by_cases hm : p ∈ s.data
  · have hperm := pid_set_remove_perm hm
    constructor
    · exact hperm.nodup_iff.mpr (hnd.erase p)
    · intro q hq
      exact hpos q (List.mem_of_mem_erase (hperm.mem_iff.mp hq))
  · rw [pid_set_remove_of_not_mem hm]
    exact ⟨hnd, hpos⟩

theorem pid_set_wf_clear (s : pid_set) : pid_set_wf (pid_set_clear s) := by
  constructor <;> simp [pid_set_clear]

theorem pid_set_wf_empty : pid_set_wf pid_set_empty := by
  constructor <;> simp [pid_set_empty]

theorem wf_foldl (ops : List SetOp) :
    ∀ s, pid_set_wf s → pid_set_wf (ops.foldl apply_op s) := by
  induction ops with
  | nil => intro s h; exact h
  | cons op rest ih =>
    intro s h
    apply ih
    cases op with
    | addOp p => exact pid_set_wf_add h p
    | removeOp p => exact pid_set_wf_remove h p
    | clearOp => exact pid_set_wf_clear s

/-- C9: every PID set built by any sequence of the program's operations
from the zero-initialised set contains only positive, pairwise-distinct
elements (so the final report prints each PID at most once), and `swap`
preserves well-formedness of both sets. -/
theorem set_invariant_claim (ops : List SetOp) (a b : pid_set) :
    pid_set_wf (ops.foldl apply_op pid_set_empty) ∧
    (∀ p : Int, (ops.foldl apply_op pid_set_empty).data.count p ≤ 1) ∧
    (pid_set_wf a → pid_set_wf b →
      pid_set_wf (pid_set_swap a b).1 ∧ pid_set_wf (pid_set_swap a b).2) := by
  have hwf := wf_foldl ops pid_set_empty pid_set_wf_empty
  refine ⟨hwf, ?_, fun ha hb => ⟨hb, ha⟩⟩
  intro p
  exact List.nodup_iff_count_le_one.mp hwf.1 p

/-- Witness for `set_invariant_claim` at a concrete operation sequence and
concrete sets. -/
theorem set_invariant_claim_witness :
    pid_set_wf ([SetOp.addOp 5, SetOp.addOp 5, SetOp.removeOp 9].foldl apply_op
      pid_set_empty) ∧
    pid_set_wf (pid_set_swap (pid_set_add pid_set_empty 3) pid_set_empty).1 := by
  constructor
  · exact (set_invariant_claim [SetOp.addOp 5, SetOp.addOp 5, SetOp.removeOp 9]
      pid_set_empty pid_set_empty).1
  · exact ((set_invariant_claim [] (pid_set_add pid_set_empty 3) pid_set_empty).2.2
      (by constructor <;> decide) (by constructor <;> decide)).1

/-! ## The registration race in the kqueue engine (C10) -/

/-- C10: a never-before-seen PID is inserted into the seen set before its
event registration is attempted, so when registration fails with "no such
process" the PID stays in the seen set (and hence in the final report)
while ending up absent from the active set. -/
theorem kq_register_race_claim (env : KqEnv) (fuel : Nat) (st : KqState) (pid : Int)
    (hpos : 0 < pid) (hseen : pid_set_contains st.seen pid = false)
    (hact : pid_set_contains st.active pid = false)
    (hreg : env.kreg pid = some ESRCH) :
    add_pid_watch env (fuel + 1) st pid =
      some (.ok { st with seen := pid_set_add st.seen pid,
                          active := pid_set_remove (pid_set_add st.active pid) pid }) ∧
    (pid_set_add st.seen pid).data = st.seen.data ++ [pid] ∧
    pid_set_contains (pid_set_add st.seen pid) pid = true ∧
    pid_set_contains (pid_set_remove (pid_set_add st.active pid) pid) pid = false := by
  have hnle : ¬pid ≤ 0 := by omega
  have hadat := pid_set_add_data_of_new hpos hact
  have hmem : pid ∈ (pid_set_add st.active pid).data := by
    rw [hadat]; simp
  have hperm := pid_set_remove_perm hmem
  have herase : ((pid_set_add st.active pid).data).erase pid = st.active.data := by
    rw [hadat, List.erase_append_right _ ((pid_set_contains_false_iff _ _).mp hact)]
    simp
  refine ⟨?_, pid_set_add_data_of_new hpos hseen, ?_, ?_⟩
  · simp [add_pid_watch, watch_pid, hseen, hact, hreg, hnle]
  · rw [pid_set_contains_iff, pid_set_add_data_of_new hpos hseen]
    simp
  · rw [pid_set_contains_false_iff]
    rw [hperm.mem_iff, herase]
    exact (pid_set_contains_false_iff _ _).mp hact

/-- Witness for `kq_register_race_claim`: a concrete racing registration,
with the resulting state evaluated. -/
theorem kq_register_race_claim_witness :
    add_pid_watch kqEnvRace 2 kqRaceSt 60 =
      some (.ok { seen := { data := [50, 60], capacity := 16 },
                  active := { data := [50], capacity := 16 }, buf := ⟨16⟩ }) ∧
    pid_set_contains { data := [50, 60], capacity := 16 } 60 = true ∧
    pid_set_contains { data := [50], capacity := 16 } 60 = false := by
  have h := kq_register_race_claim kqEnvRace 1 kqRaceSt 60 (by decide) (by decide)
    (by decide) (by rfl)
  exact ⟨h.1.trans (by rfl), by decide, by decide⟩

/-! ## Monotonic growth of the seen set (C1) -/

theorem kq_seen_ext (fuel : Nat) :
    (∀ (env : KqEnv) (st : KqState) (pid : Int) (r : KqState),
        add_pid_watch env fuel st pid = some (.ok r) → seen_ext st.seen r.seen) ∧
    (∀ (env : KqEnv) (st : KqState) (pid : Int) (r : KqState),
        ensure_children env fuel st pid = some (.ok r) → seen_ext st.seen r.seen) ∧
    (∀ (env : KqEnv) (st : KqState) (l : List Int) (r : KqState),
        ensure_children_loop env fuel st l = some (.ok r) → seen_ext st.seen r.seen) := by
  induction fuel with
  | zero =>
    refine ⟨?_, ?_, ?_⟩ <;> intro env st x r h <;>
      simp [add_pid_watch, ensure_children, ensure_children_loop] at h
  | succ n ih =>
    obtain ⟨ihA, ihE, ihL⟩ := ih
    refine ⟨?_, ?_, ?_⟩
    · intro env st pid r h
      simp only [add_pid_watch] at h
      by_cases hp : pid ≤ 0
      · rw [if_pos hp] at h
        simp only [Option.some.injEq, Except.ok.injEq] at h
        subst h
        exact seen_ext_refl _
      · rw [if_neg hp] at h
        by_cases hseen : pid_set_contains st.seen pid = true
        · simp only [hseen] at h
          by_cases hact : pid_set_contains st.active pid = true
          · simp [hact] at h
            subst h
            exact seen_ext_refl _
          · have haf := Bool.eq_false_iff.mpr hact
            simp [haf] at h
            split at h
            · exact absurd h (by simp)
            · split at h
              · simp only [Option.some.injEq, Except.ok.injEq] at h
                subst h
                exact seen_ext_refl _
              · simp only [Option.some.injEq, Except.ok.injEq] at h
                subst h
                exact seen_ext_refl _
        · have hsf := Bool.eq_false_iff.mpr hseen
          simp only [hsf] at h
          by_cases hact : pid_set_contains st.active pid = true
          · simp [hact] at h
            exact seen_ext_trans (seen_ext_add st.seen pid)
              (ihE env ⟨pid_set_add st.seen pid, st.active, st.buf⟩ pid r h)
          · have haf := Bool.eq_false_iff.mpr hact
            simp [haf] at h
            split at h
            · exact absurd h (by simp)
            · split at h
              · simp only [Option.some.injEq, Except.ok.injEq] at h
                subst h
                exact seen_ext_add st.seen pid
              · exact seen_ext_trans (seen_ext_add st.seen pid)
                  (ihE env ⟨pid_set_add st.seen pid, pid_set_add st.active pid,
                    st.buf⟩ pid r h)
    · intro env st pid r h
      simp only [ensure_children] at h
      split at h
      · cases h
      · simp only [Option.some.injEq, Except.ok.injEq] at h
        subst h
        exact seen_ext_refl _
      · rename_i buf' cs heq
        exact ihL env ⟨st.seen, st.active, buf'⟩ cs r h
    · intro env st l r h
      cases l with
      | nil =>
        simp only [ensure_children_loop, Option.some.injEq, Except.ok.injEq] at h
        subst h
        exact seen_ext_refl _
      | cons c rest =>
        simp only [ensure_children_loop] at h
        by_cases hc : c ≤ 0
        · rw [if_pos hc] at h
          exact ihL env st rest r h
        · rw [if_neg hc] at h
          by_cases hseen : pid_set_contains st.seen c = true
          · simp only [hseen] at h
            by_cases hact : pid_set_contains st.active c = true
            · simp [hact] at h
              exact ihL env st rest r h
            · have haf := Bool.eq_false_iff.mpr hact
              simp [haf] at h
              split at h
              · exact absurd h (by simp)
              · split at h
                · exact ihL env ⟨st.seen,
                    pid_set_remove (pid_set_add st.active c) c, st.buf⟩ rest r h
                · split at h
                  · exact absurd h (by simp)
                  · exact absurd h (by simp)
                  · rename_i st2 heq2
                    exact seen_ext_trans
                      (ihE env ⟨st.seen, pid_set_add st.active c, st.buf⟩ c st2 heq2)
                      (ihL env st2 rest r h)
          · have hsf := Bool.eq_false_iff.mpr hseen
            simp [hsf] at h
            split at h
            · exact absurd h (by simp)
            · exact absurd h (by simp)
            · rename_i st2 heq2
              exact seen_ext_trans (ihA env st c st2 heq2) (ihL env st2 rest r h)

theorem process_events_seen_ext (child : Int) (env : KqEnv) :
    ∀ (l : List KEv) (st st' : kq_main_state),
      process_events child env l st = some (.ok st') →
      seen_ext st.ks.seen st'.ks.seen := by
  intro l
  induction l with
  | nil =>
    intro st st' h
    simp only [process_events, Option.some.injEq, Except.ok.injEq] at h
    subst h
    exact seen_ext_refl _
  | cons ev rest ih =>
    intro st st' h
    simp only [process_events] at h
    by_cases herr : ev.ev_error = true
    · simp only [herr] at h
      by_cases hes : ev.err_data = ESRCH
      · simp [hes] at h
        by_cases hid : ev.ident = child
        · simp only [if_pos hid] at h
          have hx := ih _ _ h
          exact hx
        · simp only [if_neg hid] at h
          have hx := ih _ _ h
          exact hx
      · simp [hes] at h
        exact ih _ _ h
    · have hef := Bool.eq_false_iff.mpr herr
      simp only [hef] at h
      by_cases hfork : ev.note_fork = true
      · simp [hfork] at h
        split at h
        · cases h
        · exact absurd h (by simp)
        · rename_i ks1 heq
          have hse := (kq_seen_ext env.ecFuel).2.1 env st.ks ev.ident ks1 heq
          by_cases hexit : ev.note_exit = true
          · simp only [hexit] at h
            by_cases hid : ev.ident = child
            · simp only [if_pos hid] at h
              have hx := ih _ _ h
              exact seen_ext_trans hse hx
            · simp only [if_neg hid] at h
              have hx := ih _ _ h
              exact seen_ext_trans hse hx
          · have hxf := Bool.eq_false_iff.mpr hexit
            simp [hxf] at h
            have hx := ih _ _ h
            exact seen_ext_trans hse hx
      · have hff := Bool.eq_false_iff.mpr hfork
        simp [hff] at h
        by_cases hexit : ev.note_exit = true
        · simp only [hexit] at h
          by_cases hid : ev.ident = child
          · simp only [if_pos hid] at h
            have hx := ih _ _ h
            exact hx
          · simp only [if_neg hid] at h
            have hx := ih _ _ h
            exact hx
        · have hxf := Bool.eq_false_iff.mpr hexit
          simp [hxf] at h
          have hx := ih _ _ h
          exact hx

theorem kq_loop_seen_ext (child : Int) (iters : Nat → KqIter) :
    ∀ (fuel : Nat) (st st' : kq_main_state) (e : Bool),
      kq_loop child iters fuel st = some (.done st' e) →
      seen_ext st.ks.seen st'.ks.seen := by
  intro fuel
  induction fuel with
  | zero => intro st st' e h; simp [kq_loop] at h
  | succ n ih =>
    intro st st' e h
    simp only [kq_loop] at h
    split at h
    · split at h
      · split at h
        · simp only [Option.some.injEq, KqLoopOut.done.injEq] at h
          obtain ⟨rfl, -⟩ := h
          exact seen_ext_refl _
        · exact ih _ _ _ h
        · simp only [Option.some.injEq, KqLoopOut.done.injEq] at h
          obtain ⟨rfl, -⟩ := h
          exact seen_ext_refl _
        · simp only [Option.some.injEq, KqLoopOut.done.injEq] at h
          obtain ⟨rfl, -⟩ := h
          exact seen_ext_refl _
      · split at h
        · exact ih _ _ _ h
        · simp only [Option.some.injEq, KqLoopOut.done.injEq] at h
          obtain ⟨rfl, -⟩ := h
          exact seen_ext_refl _
        · split at h
          · cases h
          · exact absurd h (by simp)
          · rename_i st1 heq
            have hpe := process_events_seen_ext child _ _ st st1 heq
            by_cases hr : st1.child_exited = false ∧ (iters n).reap_now = true
            · simp only [if_pos hr] at h
              have hx := ih _ _ _ h
              exact seen_ext_trans hpe hx
            · simp only [if_neg hr] at h
              exact seen_ext_trans hpe (ih _ _ _ h)
    · simp only [Option.some.injEq, KqLoopOut.done.injEq] at h
      obtain ⟨rfl, -⟩ := h
      exact seen_ext_refl _

theorem poll_children_fold_seen_ext (kill0 : Int → Option Nat) :
    ∀ (cs : List Int) (st : poll_state),
      seen_ext st.seen (poll_children_fold kill0 cs st).seen := by
  intro cs
  induction cs with
  | nil => intro st; exact seen_ext_refl _
  | cons c rest ih =>
    intro st
    simp only [poll_children_fold]
    by_cases hc : c ≤ 0
    · rw [if_pos hc]
      exact ih st
    · rw [if_neg hc]
      by_cases hseen : pid_set_contains st.seen c = true
      · simp only [hseen, Bool.not_true]
        by_cases halive : pid_is_alive kill0 c = true
        · simp [halive]
          exact ih _
        · have haf := Bool.eq_false_iff.mpr halive
          simp [haf]
          exact ih _
      · have hsf := Bool.eq_false_iff.mpr hseen
        simp only [hsf, Bool.not_false]
        by_cases halive : pid_is_alive kill0 c = true
        · simp [halive]
          exact seen_ext_trans (seen_ext_add st.seen c) (ih _)
        · have haf := Bool.eq_false_iff.mpr halive
          simp [haf]
          exact seen_ext_trans (seen_ext_add st.seen c) (ih _)

theorem poll_scan_seen_ext (env : PollEnv) :
    ∀ (l : List Int) (st st' : poll_state),
      poll_scan env l st = some st' → seen_ext st.seen st'.seen := by
  intro l
  induction l with
  | nil =>
    intro st st' h
    simp only [poll_scan, Option.some.injEq] at h
    subst h
    exact seen_ext_refl _
  | cons current rest ih =>
    intro st st' h
    simp only [poll_scan] at h
    by_cases halive : pid_is_alive env.kill0 current = true
    · simp [halive] at h
      split at h
      · cases h
      · have hx := ih _ _ h
        exact hx
      · rename_i buf' cs heq
        have hx := ih _ _ h
        refine seen_ext_trans ?_ hx
        exact poll_children_fold_seen_ext env.kill0 cs _
    · have haf := Bool.eq_false_iff.mpr halive
      simp [haf] at h
      exact ih _ _ h

theorem poll_body_seen_ext (env : PollEnv) (st st' : poll_state)
    (h : poll_body env st = some st') : seen_ext st.seen st'.seen := by
  simp only [poll_body] at h
  by_cases hr : st.child_exited = false ∧ env.reap_now = true
  · simp only [if_pos hr] at h
    split at h
    · cases h
    · rename_i st2 heq
      simp only [Option.some.injEq] at h
      subst h
      have hx := poll_scan_seen_ext env _ _ _ heq
      exact hx
  · simp only [if_neg hr] at h
    split at h
    · cases h
    · rename_i st2 heq
      simp only [Option.some.injEq] at h
      subst h
      have hx := poll_scan_seen_ext env _ _ _ heq
      exact hx

theorem poll_loop_seen_ext (envs : Nat → PollEnv) :
    ∀ (fuel : Nat) (st st' : poll_state),
      poll_loop envs fuel st = some st' → seen_ext st.seen st'.seen := by
  intro fuel
  induction fuel with
  | zero => intro st st' h; simp [poll_loop] at h
  | succ n ih =>
    intro st st' h
    simp only [poll_loop] at h
    split at h
    · split at h
      · cases h
      · rename_i st1 heq
        have h1 := poll_body_seen_ext (envs n) st st1 heq
        split at h
        · simp only [Option.some.injEq] at h
          subst h
          exact h1
        · by_cases hw : 0 < st1.warmup
          · simp only [if_pos hw] at h
            have hx := ih _ _ h
            exact seen_ext_trans h1 hx
          · simp only [if_neg hw] at h
            have hx := ih _ _ h
            exact seen_ext_trans h1 hx
    · simp only [Option.some.injEq] at h
      subst h
      exact seen_ext_refl _

/-- C1: throughout any run of either engine the seen set only ever has
entries appended (so a PID enters it at most once, nothing is ever removed
from it, and its size is non-decreasing). -/
theorem seen_monotone_claim :
    (∀ (envs : Nat → PollEnv) (fuel : Nat) (st st' : poll_state),
        poll_loop envs fuel st = some st' →
        (∃ t, st'.seen.data = st.seen.data ++ t) ∧
        st.seen.data.length ≤ st'.seen.data.length ∧
        (st.seen.data.Nodup → st'.seen.data.Nodup)) ∧
    (∀ (child : Int) (iters : Nat → KqIter) (fuel : Nat) (st st' : kq_main_state)
        (e : Bool), kq_loop child iters fuel st = some (.done st' e) →
        (∃ t, st'.ks.seen.data = st.ks.seen.data ++ t) ∧
        st.ks.seen.data.length ≤ st'.ks.seen.data.length ∧
        (st.ks.seen.data.Nodup → st'.ks.seen.data.Nodup)) := by
  constructor
  · intro envs fuel st st' h
    obtain ⟨he, hn⟩ := poll_loop_seen_ext envs fuel st st' h
    exact ⟨he, seen_ext_length ⟨he, hn⟩, hn⟩
  · intro child iters fuel st st' e h
    obtain ⟨he, hn⟩ := kq_loop_seen_ext child iters fuel st st' e h
    exact ⟨he, seen_ext_length ⟨he, hn⟩, hn⟩

/-- Witness for `seen_monotone_claim`: one concrete terminating run of each
engine's loop. -/
theorem seen_monotone_claim_witness :
    (∃ t : List Int, [(42 : Int)] = [(42 : Int)] ++ t) ∧
    (∃ t : List Int, [(100 : Int)] = [(100 : Int)] ++ t) := by
  have hp := seen_monotone_claim.1
    (fun _ => ⟨true, fun _ => some ESRCH, fun _ _ => .error ESRCH, fun _ => true, 1⟩) 1
    ⟨⟨[42], 16⟩, pid_set_empty, pid_set_empty, pid_set_empty, pid_set_empty, ⟨0⟩, true, 0⟩
    ⟨⟨[42], 16⟩, pid_set_empty, pid_set_empty, pid_set_empty, pid_set_empty, ⟨0⟩, true, 0⟩
    (by rfl)
  have hk := seen_monotone_claim.2 100 (fun _ => kqIterErr) 1
    ⟨⟨⟨[100], 16⟩, pid_set_empty, ⟨16⟩⟩, true, true⟩
    ⟨⟨⟨[100], 16⟩, pid_set_empty, ⟨16⟩⟩, true, true⟩ false (by rfl)
  exact ⟨hp.1, hk.1⟩

/-! ## Loop-termination state (C2) -/

/-- C2 counterexample: when the kqueue engine's event-retrieval call fails
with a non-EINTR error while the command (PID 100) is alive, the main loop
terminates with the active set still containing PID 100 and the command
neither observed exited nor reaped. -/
theorem loop_termination_cex :
    kq_run 100 kqEnvOk (fun _ => kqIterErr) 5 3 = some (.done kqStBad true) ∧
    kqStBad.ks.active.data = [100] ∧ kqStBad.child_exited = false ∧
    kqStBad.reaped = false := by
  exact ⟨by rfl, by rfl, by rfl, by rfl⟩

/-- C2 amended: whenever the polling engine's loop terminates, the command
has been reaped and the active set is empty; the kqueue engine's loop
guarantees the same (with "reaped" weakened to "observed exited") only
when it does not terminate through an OS-failure break. -/
theorem loop_termination_claim :
    (∀ (envs : Nat → PollEnv) (fuel : Nat) (st st' : poll_state),
        poll_loop envs fuel st = some st' →
        st'.child_exited = true ∧ st'.active.data.length = 0) ∧
    (∀ (child : Int) (iters : Nat → KqIter) (fuel : Nat) (st st' : kq_main_state),
        kq_loop child iters fuel st = some (.done st' false) →
        st'.child_exited = true ∧ st'.ks.active.data.length = 0) := by
  constructor
  · intro envs fuel
    induction fuel with
    | zero => intro st st' h; simp [poll_loop] at h
    | succ n ih =>
      intro st st' h
      simp only [poll_loop] at h
      split at h
      · split at h
        · cases h
        · rename_i st1 heq
          split at h
          · rename_i hcond
            simp only [Option.some.injEq] at h
            subst h
            exact ⟨hcond.1, hcond.2⟩
          · by_cases hw : 0 < st1.warmup
            · simp only [if_pos hw] at h
              have hx := ih _ _ h
              exact hx
            · simp only [if_neg hw] at h
              have hx := ih _ _ h
              exact hx
      · rename_i hcond
        simp only [Option.some.injEq] at h
        subst h
        simp at hcond
        exact ⟨hcond.1, by simp [hcond.2]⟩
  · intro child iters fuel
    induction fuel with
    | zero => intro st st' h; simp [kq_loop] at h
    | succ n ih =>
      intro st st' h
      simp only [kq_loop] at h
      split at h
      · split at h
        · rename_i hguard
          split at h
          · simp only [Option.some.injEq, KqLoopOut.done.injEq] at h
            obtain ⟨rfl, -⟩ := h
            exact ⟨rfl, hguard.2⟩
          · exact ih _ _ h
          · simp only [Option.some.injEq, KqLoopOut.done.injEq] at h
            obtain ⟨rfl, -⟩ := h
            exact ⟨rfl, hguard.2⟩
          · simp at h
        · split at h
          · exact ih _ _ h
          · simp at h
          · split at h
            · cases h
            · simp at h
            · rename_i st1 heq
              by_cases hr : st1.child_exited = false ∧ (iters n).reap_now = true
              · simp only [if_pos hr] at h
                have hx := ih _ _ h
                exact hx
              · simp only [if_neg hr] at h
                exact ih _ _ h
      · rename_i hcond
        simp only [Option.some.injEq, KqLoopOut.done.injEq] at h
        obtain ⟨rfl, -⟩ := h
        simp at hcond
        exact ⟨hcond.1, by simp [hcond.2]⟩

/-- Witness for `loop_termination_claim` on the concrete runs used for the
seen-set witness. -/
theorem loop_termination_claim_witness :
    (true = true ∧ (pid_set_empty.data.length = 0)) ∧
    (true = true ∧ (pid_set_empty.data.length = 0)) := by
  have hp := loop_termination_claim.1
    (fun _ => ⟨true, fun _ => some ESRCH, fun _ _ => .error ESRCH, fun _ => true, 1⟩) 1
    ⟨⟨[42], 16⟩, pid_set_empty, pid_set_empty, pid_set_empty, pid_set_empty, ⟨0⟩, true, 0⟩
    ⟨⟨[42], 16⟩, pid_set_empty, pid_set_empty, pid_set_empty, pid_set_empty, ⟨0⟩, true, 0⟩
    (by rfl)
  have hk := loop_termination_claim.2 100 (fun _ => kqIterErr) 1
    ⟨⟨⟨[100], 16⟩, pid_set_empty, ⟨16⟩⟩, true, true⟩
    ⟨⟨⟨[100], 16⟩, pid_set_empty, ⟨16⟩⟩, true, true⟩ (by rfl)
  exact ⟨hp, hk⟩
